import Mathlib

/-!
Verification development for the Instagram-downloader Telegram bot
(`src/bot.py`).  The Python source is shallowly embedded: the database is a
Lean list of rows, every external call (Telegram delivery, the Instagram
fetch) is an input supplied through an environment record, and each handler
returns the trace of the externally visible actions it performed.
-/

namespace InstaBot

/-- Whitespace characters of the Python regex class backslash-s
(restricted to the ASCII range in this model). -/
def pySpace (c : Char) : Bool :=
  c = ' ' || c = '\t' || c = '\n' || c = '\r' || c = '\x0b' || c = '\x0c'

/-- Python `str.strip` with no argument (restricted to ASCII whitespace in
this model): removes leading and trailing whitespace (source line 220). -/
def pyStrip (s : String) : String :=
  String.mk (((s.toList.dropWhile pySpace).reverse.dropWhile pySpace).reverse)

/-- Python `str.endswith` (one suffix): suffix test on the characters. -/
def strEndsWith (s suffix : String) : Bool :=
  suffix.toList.isSuffixOf s.toList

/-- The characters of the scheme alternative without the optional s. -/
def httpPre : List Char := ['h', 't', 't', 'p', ':', '/', '/']

/-- The characters of the scheme alternative with the optional s. -/
def httpsPre : List Char := ['h', 't', 't', 'p', 's', ':', '/', '/']

/-- Matcher for the compiled pattern `URL_RE = (https?://[^\s]+)` at the head
of a character list (source line 99).  The alternative with the optional `s`
is tried first, as the regex engine does (the two alternatives can never both
match at one position); the body is the maximal run of non-whitespace
characters and must be nonempty. -/
def urlMatchAt (cs : List Char) : Option (List Char) :=
  if httpsPre.isPrefixOf cs then
    let body := (cs.drop 8).takeWhile (fun c => !pySpace c)
    if body.isEmpty then none else some (httpsPre ++ body)
  else if httpPre.isPrefixOf cs then
    let body := (cs.drop 7).takeWhile (fun c => !pySpace c)
    if body.isEmpty then none else some (httpPre ++ body)
  else none

/-- Leftmost search of `URL_RE` over the text, as `re.search` does
(source line 102). -/
def urlSearch : List Char → Option (List Char)
  | [] => none
  | c :: rest =>
    match urlMatchAt (c :: rest) with
    | some m => some m
    | none => urlSearch rest

/-- Embedding of `extract_url` (source lines 101 to 103). -/
def extract_url (text : String) : Option String :=
  match urlSearch text.toList with
  | some m => some (String.mk m)
  | none => none

/-- Spec side of claim C5, written from the claim's words for comparison with
the embedded `extract_url`: a substring matching an HTTP or HTTPS URL, namely
the scheme followed by at least one non-whitespace character. -/
def urlShape (u : List Char) : Prop :=
  ∃ t, t ≠ [] ∧ (∀ c ∈ t, pySpace c = false) ∧
    (u = httpPre ++ t ∨ u = httpsPre ++ t)

/-- Spec side of claim C5: some substring matching the pattern starts at
position i of the text. -/
def hasMatchAt (cs : List Char) (i : Nat) : Prop :=
  ∃ u, urlShape u ∧ u <+: cs.drop i

/-- Spec side of claim C5: u is the maximal match at position i: it matches
there and the text ends or continues with whitespace right after it. -/
def greedyAt (cs : List Char) (i : Nat) (u : List Char) : Prop :=
  urlShape u ∧ u <+: cs.drop i ∧
    ((cs.drop i).drop u.length = [] ∨
      ∃ d t2, (cs.drop i).drop u.length = d :: t2 ∧ pySpace d = true)

/-- Word characters of the Python regex class backslash-w
(restricted to the ASCII range in this model). -/
def isWordChar (c : Char) : Bool := c.isAlphanum || c = '_'

/-- Scanner for `re.findall` with a pattern of the shape `#\w+` or `@\w+`:
collects, left to right and without overlap, every marker character followed
by a maximal nonempty run of word characters (source lines 106 to 107).
The fuel argument makes the recursion structural; it is initialised to the
length of the input, which every step consumes at least one character of. -/
def findMarkedF (mark : Char) : Nat → List Char → List String
  | 0, _ => []
  | _ + 1, [] => []
  | fuel + 1, c :: rest =>
    if c = mark then
      let run := rest.takeWhile isWordChar
      if run.isEmpty then findMarkedF mark fuel rest
      else String.mk (mark :: run) :: findMarkedF mark fuel (rest.drop run.length)
    else findMarkedF mark fuel rest

/-- The scanner at full fuel. -/
def findMarked (mark : Char) (cs : List Char) : List String :=
  findMarkedF mark cs.length cs

/-- Embedding of `extract_tags_and_mentions` (source lines 105 to 108). -/
def extract_tags_and_mentions (caption : String) : List String × List String :=
  (findMarked '#' caption.toList, findMarked '@' caption.toList)

/-- Embedding of `is_admin` (source lines 110 to 111); the `ADMIN_IDS` list
read from the environment is a parameter. -/
def is_admin (adminIds : List Int) (user_id : Int) : Bool :=
  adminIds.contains user_id

/-- Remainder of the characters after the first occurrence of the scheme
separator, when there is one. -/
def afterSchemeSep : List Char → Option (List Char)
  | ':' :: '/' :: '/' :: rest => some rest
  | _ :: rest => afterSchemeSep rest
  | [] => none

/-- Path component produced by the Python standard library `urlparse` for the
URLs this program feeds it: everything from the first slash after the network
location up to a query or fragment delimiter; when the scheme separator is
absent the whole string up to a delimiter is the path (used at source
line 114). -/
def urlparse_path (url : String) : String :=
  match afterSchemeSep url.toList with
  | some after =>
    let tailPart := after.dropWhile (fun c => c ≠ '/' && c ≠ '?' && c ≠ '#')
    match tailPart with
    | '/' :: _ => String.mk (tailPart.takeWhile (fun c => c ≠ '?' && c ≠ '#'))
    | _ => ""
  | none => String.mk (url.toList.takeWhile (fun c => c ≠ '?' && c ≠ '#'))

/-- Python `str.split` with a single separator character: the separator is
not kept, empty pieces are, and the empty string yields one empty piece. -/
def splitChar (sep : Char) : List Char → List (List Char)
  | [] => [[]]
  | c :: rest =>
    let r := splitChar sep rest
    if c = sep then [] :: r
    else
      match r with
      | [] => [[c]]
      | h :: t => (c :: h) :: t

/-- Python `path.strip` with the slash character: removes every leading and
trailing slash. -/
def stripSlashes (path : List Char) : List Char :=
  ((path.dropWhile (fun c => c = '/')).reverse.dropWhile (fun c => c = '/')).reverse

/-- Embedding of `get_shortcode_from_url` (source lines 113 to 118). -/
def get_shortcode_from_url (url : String) : Option String :=
  let path := (urlparse_path url).toList
  match splitChar '/' (stripSlashes path) with
  | _ :: second :: _ => some (String.mk second)
  | _ => none

/-- One entry of `post.get_sidecar_nodes()` as the instaloader library
presents it. -/
structure SidecarNode where
  is_video : Bool
  video_url : String
  display_url : String
deriving DecidableEq, Repr

/-- The fields of an instaloader `Post` object that the program reads. -/
structure Post where
  mediaid : Nat
  caption : Option String
  is_video : Bool
  typename : String
  video_url : String
  url : String
  sidecar_nodes : List SidecarNode
deriving DecidableEq, Repr

/-- Result dictionary built by `get_instagram_post_info`
(source lines 147 to 153). -/
structure MediaInfo where
  media_type : String
  media_urls : List String
  caption : String
  hashtags : List String
  mentions : List String
deriving DecidableEq, Repr

/-- The media URLs collected by the sidecar loop (source lines 139 to 143). -/
def sidecarUrls : List SidecarNode → List String
  | [] => []
  | n :: rest => (if n.is_video then n.video_url else n.display_url) :: sidecarUrls rest

/-- Embedding of `get_instagram_post_info` (source lines 120 to 153).  The
network fetch done by `Post.from_shortcode` is an input: `fetch` holds either
the post the Instagram library returns or the text of the exception it
raises. -/
def get_instagram_post_info (url : String) (fetch : Except String Post) :
    Except String MediaInfo :=
  match get_shortcode_from_url url with
  | none => Except.error "URL dan shortcode olinmadi"
  | some _ =>
    match fetch with
    | Except.error e => Except.error e
    | Except.ok post =>
      let caption := post.caption.getD ""
      let tm := extract_tags_and_mentions caption
      if post.is_video then
        Except.ok ⟨"video", [post.video_url], caption, tm.1, tm.2⟩
      else if post.typename = "GraphSidecar" then
        Except.ok ⟨"album", sidecarUrls post.sidecar_nodes, caption, tm.1, tm.2⟩
      else
        Except.ok ⟨"photo", [post.url], caption, tm.1, tm.2⟩

/-- One row of the `logs` table (source lines 36 to 46). -/
structure LogEntry where
  id : Nat
  user_id : Int
  username : String
  first_name : String
  link : String
  media_pk : String
  created_at : Nat
deriving DecidableEq, Repr

/-- Value the `SERIAL` primary key assigns to the next inserted row: strictly
larger than every existing id. -/
def nextId (logs : List LogEntry) : Nat :=
  (logs.map (fun r => r.id)).foldl max 0 + 1

/-- Embedding of `add_log` (source lines 50 to 58): a single INSERT appending
one row; `now` models `datetime.utcnow()`. -/
def add_log (logs : List LogEntry) (now : Nat) (user_id : Int)
    (username first_name link media_pk : String) : List LogEntry :=
  logs ++ [⟨nextId logs, user_id, username, first_name, link, media_pk, now⟩]

/-- Insertion step of the descending sort used to model `ORDER BY _ DESC`. -/
def insertDescBy {α : Type} (f : α → Nat) (a : α) : List α → List α
  | [] => [a]
  | b :: l => if f b ≤ f a then a :: b :: l else b :: insertDescBy f a l

/-- Descending sort by a numeric key, modelling `ORDER BY _ DESC`. -/
def sortDescBy {α : Type} (f : α → Nat) : List α → List α
  | [] => []
  | a :: l => insertDescBy f a (sortDescBy f l)

/-- Embedding of `get_logs` (source lines 77 to 83):
`SELECT ... FROM logs ORDER BY id DESC LIMIT limit`. -/
def get_logs (limit : Nat) (logs : List LogEntry) : List LogEntry :=
  (sortDescBy (fun r => r.id) logs).take limit

/-- First occurrence of each value, in order of first appearance.  The fuel
argument makes the recursion structural; each step removes at least the head
of the list, so the length of the input is always enough fuel. -/
def distinctFirstF {α : Type} [DecidableEq α] : Nat → List α → List α
  | 0, _ => []
  | _ + 1, [] => []
  | fuel + 1, a :: l => a :: distinctFirstF fuel (l.filter (fun x => x != a))

/-- First occurrence of each value at full fuel. -/
def distinctFirst {α : Type} [DecidableEq α] (xs : List α) : List α :=
  distinctFirstF xs.length xs

/-- Largest id among the rows carrying a given link (the SQL `MAX(id)` of the
group of that link). -/
def linkMaxId (logs : List LogEntry) (link : String) : Nat :=
  ((logs.filter (fun r => r.link == link)).map (fun r => r.id)).foldl max 0

/-- Embedding of `get_links` (source lines 85 to 96):
`SELECT link FROM logs GROUP BY link ORDER BY MAX(id) DESC LIMIT limit`.
Each group of rows sharing a link appears once; scanning the rows in
descending id order and keeping first occurrences lists the groups in
descending order of their maximal id, because the first row of a link in that
scan is the row realising the maximum of the group. -/
def get_links (limit : Nat) (logs : List LogEntry) : List String :=
  (distinctFirst ((sortDescBy (fun r => r.id) logs).map (fun r => r.link))).take limit

/-- Grouping key of the top-senders query (source lines 67 to 72). -/
def statKey (r : LogEntry) : Int × String × String :=
  (r.user_id, r.username, r.first_name)

/-- Result of `get_stats` (source lines 60 to 75). -/
structure Stats where
  total : Nat
  unique_users : Nat
  top : List ((Int × String × String) × Nat)
deriving DecidableEq, Repr

/-- Embedding of `get_stats` (source lines 60 to 75): the row count, the
distinct user count and the ten most frequent (user_id, username, first_name)
groups; SQL leaves the order of equal counts unspecified, the model fixes it
arbitrarily. -/
def get_stats (logs : List LogEntry) : Stats :=
  { total := logs.length
    unique_users := (distinctFirst (logs.map (fun r => r.user_id))).length
    top := (sortDescBy (fun k => k.2) ((distinctFirst (logs.map statKey)).map
      (fun k => (k, (logs.filter (fun r => statKey r == k)).length)))).take 10 }

/-- Externally visible actions of a handler: Telegram sends and edits, and
the database and resolver calls it makes. -/
inductive Act where
  | sendText (s : String)
  | sendPhoto (u : String)
  | sendVideo (u : String)
  | editStatus (s : String)
  | deleteStatus
  | resolveCall (url : String)
  | queryLogs (n : Nat)
  | queryLinks (n : Nat)
  | queryStats
deriving DecidableEq, Repr

/-- Whether a handler invocation returned normally or let an exception escape
to the framework. -/
inductive HResult where
  | ok
  | uncaught (e : String)
deriving DecidableEq, Repr

/-- The fields of `update.effective_user` the program reads; optional fields
are None-able in the Telegram API. -/
structure TgUser where
  id : Int
  username : Option String
  first_name : Option String
deriving DecidableEq, Repr

/-- External world of one `handle_message` invocation: the clock, the post the
Instagram library would deliver, and the outcome of each Telegram call
(`none` means delivered, `some e` means the call raises an exception with
text `e`). -/
structure Env where
  now : Nat
  fetch : Except String Post
  replyTextRes : String → Option String
  replyPhotoRes : String → Option String
  replyVideoRes : String → Option String
  editRes : Option String
  deleteRes : Option String

/-- Reply sent when the text holds no URL (source line 223). -/
def promptMsg : String := "Iltimos, Instagram post yoki reel linkini yuboring."

/-- The please-wait status message (source line 226). -/
def statusMsg : String := "🔎 Instagram ma\x27lumot olinayapti... iltimos kuting"

/-- Reply of the fallback media branch (source line 249). -/
def unsupportedMsg : String := "❌ Media topilmadi yoki qo‘llab-quvvatlanmaydi."

/-- Error message shown to the user (source lines 256 and 258). -/
def errText (e : String) : String := "❌ Xatolik: " ++ e

/-- Reply sent to non-admin users invoking an admin command. -/
def adminOnlyMsg : String := "❌ Bu buyruq faqat adminlarga mo‘ljallangan."

/-- Python `x or y` on strings: `y` when `x` is empty. -/
def pyOr (a b : String) : String := if a = "" then b else a

/-- The caption text built at source lines 232 to 236. -/
def mkCaption (info : MediaInfo) : String :=
  "📄 Caption:\n" ++ pyOr info.caption "(yo‘q)" ++
  "\n\n🏷 Hashtags: " ++
  (if info.hashtags.isEmpty then "Yo‘q" else String.intercalate " " info.hashtags) ++
  "\n👤 Mentions: " ++
  (if info.mentions.isEmpty then "Yo‘q" else String.intercalate " " info.mentions)

/-- The album loop (source lines 243 to 247): each URL is sent as video when
it ends in .mp4 or .mov and as photo otherwise; the first failing send raises
and aborts the loop. -/
def sendAlbum (env : Env) : List String → List Act × Option String
  | [] => ([], none)
  | u :: rest =>
    if strEndsWith u ".mp4" || strEndsWith u ".mov" then
      match env.replyVideoRes u with
      | some e => ([], some e)
      | none =>
        let t := sendAlbum env rest
        (Act.sendVideo u :: t.1, t.2)
    else
      match env.replyPhotoRes u with
      | some e => ([], some e)
      | none =>
        let t := sendAlbum env rest
        (Act.sendPhoto u :: t.1, t.2)

/-- The media branch of `handle_message` (source lines 238 to 249): one
branch per media_type value, indexing `media_urls[0]` raising on an empty
list exactly as Python does. -/
def mediaSend (env : Env) (info : MediaInfo) : List Act × Option String :=
  if info.media_type = "photo" then
    match info.media_urls with
    | [] => ([], some "list index out of range")
    | u :: _ =>
      match env.replyPhotoRes u with
      | some e => ([], some e)
      | none => ([Act.sendPhoto u], none)
  else if info.media_type = "video" then
    match info.media_urls with
    | [] => ([], some "list index out of range")
    | u :: _ =>
      match env.replyVideoRes u with
      | some e => ([], some e)
      | none => ([Act.sendVideo u], none)
  else if info.media_type = "album" then
    sendAlbum env info.media_urls
  else
    match env.replyTextRes unsupportedMsg with
    | some e => ([], some e)
    | none => ([Act.sendText unsupportedMsg], none)

/-- Tail of the try block (source lines 251 to 252): send the caption text,
then delete the status message. -/
def finishTry (env : Env) (caption_text : String) : List Act × Option String :=
  match env.replyTextRes caption_text with
  | some e => ([], some e)
  | none =>
    match env.deleteRes with
    | some e => ([Act.sendText caption_text], some e)
    | none => ([Act.sendText caption_text, Act.deleteStatus], none)

/-- Body of the try block of `handle_message` (source lines 228 to 252):
resolve the URL, append the log row with an empty media_pk, send the media,
send the caption, delete the status message.  The third component is the
exception the block raises, when any. -/
def tryBody (env : Env) (user : TgUser) (url : String) (logs : List LogEntry) :
    List LogEntry × List Act × Option String :=
  match get_instagram_post_info url env.fetch with
  | Except.error e => (logs, [Act.resolveCall url], some e)
  | Except.ok info =>
    let logs2 := add_log logs env.now user.id ((user.username).getD "")
      ((user.first_name).getD "") url ""
    let m := mediaSend env info
    match m.2 with
    | some e => (logs2, Act.resolveCall url :: m.1, some e)
    | none =>
      let f := finishTry env (mkCaption info)
      (logs2, Act.resolveCall url :: m.1 ++ f.1, f.2)

/-- Embedding of `handle_message` (source lines 218 to 258): extract the URL,
send the status message, run the try block; on an exception edit the status
message to the error text, falling back to a fresh reply when the edit itself
raises; an exception of the fallback reply, like one of the initial sends,
escapes to the framework. -/
def handle_message (env : Env) (user : TgUser) (text0 : String)
    (logs : List LogEntry) : HResult × List LogEntry × List Act :=
  let text := pyStrip text0
  match extract_url text with
  | none =>
    match env.replyTextRes promptMsg with
    | some e => (HResult.uncaught e, logs, [])
    | none => (HResult.ok, logs, [Act.sendText promptMsg])
  | some url =>
    match env.replyTextRes statusMsg with
    | some e => (HResult.uncaught e, logs, [])
    | none =>
      let t := tryBody env user url logs
      match t.2.2 with
      | none => (HResult.ok, t.1, Act.sendText statusMsg :: t.2.1)
      | some e =>
        match env.editRes with
        | none =>
          (HResult.ok, t.1, Act.sendText statusMsg :: t.2.1 ++ [Act.editStatus (errText e)])
        | some _ =>
          match env.replyTextRes (errText e) with
          | none =>
            (HResult.ok, t.1, Act.sendText statusMsg :: t.2.1 ++ [Act.sendText (errText e)])
          | some e2 => (HResult.uncaught e2, t.1, Act.sendText statusMsg :: t.2.1)

/-- Python `str.isdigit` (restricted to the ASCII range in this model):
nonempty and all decimal digits. -/
def str_isdigit (s : String) : Bool :=
  !s.isEmpty && s.toList.all (fun c => c.isDigit)

/-- Python `int` on a string of decimal digits. -/
def strToNat (s : String) : Nat :=
  s.toList.foldl (fun n c => n * 10 + (c.toNat - '0'.toNat)) 0

/-- One line of the /logs listing (source line 204). -/
def logs_line (r : LogEntry) : String :=
  "[" ++ toString r.created_at ++ "] " ++ pyOr r.first_name "" ++ " (" ++
    pyOr r.username (toString r.user_id) ++ ") → " ++ r.link

/-- Embedding of `logs_cmd` (source lines 189 to 205): admin gate, then the
limit defaults to 50 and a leading all-digit argument replaces it by
`min 500 n`, then `get_logs` and the reply. -/
def logs_cmd (adminIds : List Int) (user : TgUser) (args : List String)
    (logs : List LogEntry) : List Act :=
  if !is_admin adminIds user.id then [Act.sendText adminOnlyMsg]
  else
    let limit : Nat :=
      match args with
      | s :: _ => if str_isdigit s then min 500 (strToNat s) else 50
      | [] => 50
    let rows := get_logs limit logs
    if rows.isEmpty then [Act.queryLogs limit, Act.sendText "Logs mavjud emas."]
    else
      [Act.queryLogs limit,
        Act.sendText (String.intercalate "\n" (rows.map logs_line))]

/-- Embedding of `links_cmd` (source lines 207 to 216): admin gate, then
`get_links(200)` and the reply; the handler never reads its arguments. -/
def links_cmd (adminIds : List Int) (user : TgUser) (args : List String)
    (logs : List LogEntry) : List Act :=
  if !is_admin adminIds user.id then [Act.sendText adminOnlyMsg]
  else
    let rows := get_links 200 logs
    if rows.isEmpty then [Act.queryLinks 200, Act.sendText "Linklar mavjud emas."]
    else [Act.queryLinks 200, Act.sendText (String.intercalate "\n" rows)]

/-- One line of the /stats top-senders listing (source line 186). -/
def stats_top_line (row : (Int × String × String) × Nat) : String :=
  "- " ++ pyOr row.1.2.2 (pyOr row.1.2.1 (toString row.1.1)) ++ " (" ++
    row.1.2.1 ++ ") : " ++ toString row.2 ++ "\n"

/-- Embedding of `stats_cmd` (source lines 177 to 187). -/
def stats_cmd (adminIds : List Int) (user : TgUser) (logs : List LogEntry) :
    List Act :=
  if !is_admin adminIds user.id then [Act.sendText adminOnlyMsg]
  else
    let s := get_stats logs
    [Act.queryStats,
      Act.sendText ("📊 Statistika\nUmumiy linklar: " ++ toString s.total ++
        "\nFoydalanuvchi soni: " ++ toString s.unique_users ++
        "\n\nTop yuboruvchilar:\n" ++ String.join (s.top.map stats_top_line))]

/-- The SQL statement of `init_db` (source lines 36 to 46). -/
def init_db_stmt : String :=
  "\n    CREATE TABLE IF NOT EXISTS logs (\n        id SERIAL PRIMARY KEY,\n        user_id BIGINT,\n        username TEXT,\n        first_name TEXT,\n        link TEXT,\n        media_pk TEXT,\n        created_at TIMESTAMP\n    )\n    "

/-- The SQL statement of `add_log` (source line 54). -/
def add_log_stmt : String :=
  "INSERT INTO logs (user_id, username, first_name, link, media_pk, created_at) VALUES (%s, %s, %s, %s, %s, %s)"

/-- The SQL statements of `get_stats` (source lines 63 to 72). -/
def get_stats_stmts : List String :=
  ["SELECT COUNT(*) FROM logs",
   "SELECT COUNT(DISTINCT user_id) FROM logs",
   "\n        SELECT user_id, username, first_name, COUNT(*) as cnt \n        FROM logs \n        GROUP BY user_id, username, first_name \n        ORDER BY cnt DESC LIMIT 10\n    "]

/-- The SQL statement of `get_logs` (source line 80). -/
def get_logs_stmt : String :=
  "SELECT id, user_id, username, first_name, link, media_pk, created_at FROM logs ORDER BY id DESC LIMIT %s"

/-- The SQL statement of `get_links` (source lines 88 to 93). -/
def get_links_stmt : String :=
  "\n        SELECT link FROM logs\n        GROUP BY link\n        ORDER BY MAX(id) DESC\n        LIMIT %s\n    "

/-- Every SQL statement any function of the program executes against the
`logs` table. -/
def allLogsStatements : List String :=
  [init_db_stmt, add_log_stmt] ++ get_stats_stmts ++ [get_logs_stmt, get_links_stmt]

/-- Kind of a SQL statement, decided by its leading keyword. -/
inductive StmtKind where
  | create
  | insert
  | select
  | update
  | delete
  | other
deriving DecidableEq, Repr

/-- Leading keyword of a SQL statement, upper-cased. -/
def firstWord (s : String) : String :=
  String.mk (((s.toList.dropWhile (fun c => pySpace c)).takeWhile
    (fun c => c.isAlpha)).map Char.toUpper)

/-- Classify a SQL statement by its leading keyword. -/
def kindOf (s : String) : StmtKind :=
  if firstWord s = "CREATE" then StmtKind.create
  else if firstWord s = "INSERT" then StmtKind.insert
  else if firstWord s = "SELECT" then StmtKind.select
  else if firstWord s = "UPDATE" then StmtKind.update
  else if firstWord s = "DELETE" then StmtKind.delete
  else StmtKind.other

/-- One database operation of the program, as issued by the five database
functions. -/
inductive DbOp where
  | add (now : Nat) (user_id : Int) (username first_name link media_pk : String)
  | queryLogs (n : Nat)
  | queryLinks (n : Nat)
  | queryStats
deriving DecidableEq, Repr

/-- Effect of a database operation on the stored rows: only `add_log`
changes them, the queries read. -/
def applyDbOp (logs : List LogEntry) : DbOp → List LogEntry
  | DbOp.add now uid un fn l mp => add_log logs now uid un fn l mp
  | DbOp.queryLogs _ => logs
  | DbOp.queryLinks _ => logs
  | DbOp.queryStats => logs

/-- Effect of a sequence of database operations. -/
def applyDbOps (logs : List LogEntry) (ops : List DbOp) : List LogEntry :=
  ops.foldl applyDbOp logs

/-- The handler reached its call to the resolver (the status send was
delivered) and that call returned without raising. -/
def resolveOk (env : Env) (url : String) : Prop :=
  env.replyTextRes statusMsg = none ∧
    ∃ info, get_instagram_post_info url env.fetch = Except.ok info

/-- Shape of the stored rows as the program produces them: appended with
strictly increasing ids (each insert uses a fresh, larger `SERIAL` id). -/
def WfLogs (logs : List LogEntry) : Prop :=
  logs.Pairwise (fun a b => a.id < b.id)

instance (logs : List LogEntry) : Decidable (WfLogs logs) := by
  unfold WfLogs
  infer_instance

/-- A concrete photo post used by the concrete-input theorems. -/
def postA : Post :=
  ⟨4242, some "salom #tag", false, "GraphImage", "https://cdn.example/v.mp4",
    "https://cdn.example/pic.jpg", []⟩

/-- A concrete sender. -/
def userA : TgUser := ⟨99, some "bob", some "Bob"⟩

/-- A concrete submitted URL. -/
def urlA : String := "https://www.instagram.com/p/ABC/"

/-- A world where every external call succeeds and the fetch returns
`postA`. -/
def envOk : Env :=
  ⟨7, Except.ok postA, fun _ => none, fun _ => none, fun _ => none, none, none⟩

/-- A world where sending the please-wait status message raises a network
error and everything else would succeed. -/
def envDown : Env :=
  ⟨7, Except.ok postA, (fun s => if s = statusMsg then some "net down" else none),
    fun _ => none, fun _ => none, none, none⟩

/-- A world where the Instagram fetch raises and every Telegram call
succeeds. -/
def envErr : Env :=
  ⟨7, Except.error "boom", fun _ => none, fun _ => none, fun _ => none, none, none⟩

lemma insertDescBy_append {α : Type} (f : α → Nat) (a : α) (l : List α)
    (h : ∀ b ∈ l, f a < f b) : insertDescBy f a l = l ++ [a] := by
  induction l with
  | nil => rfl
  | cons b t ih =>
    have hb := h b (List.mem_cons_self b t)
    simp only [insertDescBy]
    rw [if_neg (by omega), ih (fun x hx => h x (List.mem_cons_of_mem b hx))]
    simp

lemma sortDescBy_eq_reverse {α : Type} (f : α → Nat) (l : List α)
    (h : l.Pairwise (fun x y => f x < f y)) : sortDescBy f l = l.reverse := by
  induction l with
  | nil => rfl
  | cons a t ih =>
    rcases List.pairwise_cons.mp h with ⟨h1, h2⟩
    simp only [sortDescBy]
    rw [ih h2,
      insertDescBy_append f a t.reverse (fun b hb => h1 b (List.mem_reverse.mp hb)),
      List.reverse_cons]

/-- Claim C7: every SQL statement the program runs against the logs table is
a creation, an insert or a select, and running any sequence of the program's
database operations only ever extends the stored rows: the old rows stay a
prefix, so no appended row is modified or removed. -/
theorem logs_append_only :
    (∀ s ∈ allLogsStatements,
      kindOf s = StmtKind.create ∨ kindOf s = StmtKind.insert ∨
        kindOf s = StmtKind.select) ∧
    ∀ (logs : List LogEntry) (ops : List DbOp), logs <+: applyDbOps logs ops := by
  constructor
  · decide
  · intro logs ops
    induction ops generalizing logs with
    | nil => exact List.prefix_refl _
    | cons op ops ih =>
      have hstep : logs <+: applyDbOp logs op := by
        cases op with
        | add now uid un fn l mp => exact ⟨_, rfl⟩
        | queryLogs n => exact List.prefix_refl _
        | queryLinks n => exact List.prefix_refl _
        | queryStats => exact List.prefix_refl _
      exact hstep.trans (ih (applyDbOp logs op))

/-- Witness for C7 at a concrete statement and operation sequence. -/
theorem logs_append_only_witness :
    (kindOf add_log_stmt = StmtKind.create ∨ kindOf add_log_stmt = StmtKind.insert ∨
      kindOf add_log_stmt = StmtKind.select) ∧
    ([] : List LogEntry) <+: applyDbOps [] [DbOp.queryStats] :=
  ⟨logs_append_only.1 add_log_stmt (by decide),
    logs_append_only.2 [] [DbOp.queryStats]⟩

/-- Claim C6: an admin invocation of /links queries the store with the fixed
limit 200, and the handler result does not depend on the supplied
arguments. -/
theorem links_cmd_fixed_limit (adminIds : List Int) (user : TgUser)
    (args : List String) (logs : List LogEntry)
    (hadm : is_admin adminIds user.id = true) :
    Act.queryLinks 200 ∈ links_cmd adminIds user args logs ∧
      ∀ args2, links_cmd adminIds user args logs = links_cmd adminIds user args2 logs := by
  constructor
  · simp only [links_cmd, hadm, Bool.not_true, Bool.false_eq_true, if_false]
    split <;> simp
  · intro args2
    rfl

/-- Witness for C6 at a concrete admin, argument list and store. -/
theorem links_cmd_fixed_limit_witness :
    Act.queryLinks 200 ∈ links_cmd [1] ⟨1, none, none⟩ ["junk"] [] ∧
      ∀ args2, links_cmd [1] ⟨1, none, none⟩ ["junk"] [] =
        links_cmd [1] ⟨1, none, none⟩ args2 [] :=
  links_cmd_fixed_limit [1] ⟨1, none, none⟩ ["junk"] [] (by decide)

/-- Claim C10: a /logs argument that is not a string of decimal digits is
silently ignored: the handler behaves exactly as with no argument, and an
admin invocation queries with the default limit 50 (so no error reply is
produced). -/
theorem logs_cmd_nondigit_default (adminIds : List Int) (user : TgUser)
    (s : String) (rest : List String) (logs : List LogEntry)
    (h : str_isdigit s = false) :
    logs_cmd adminIds user (s :: rest) logs = logs_cmd adminIds user [] logs ∧
      (is_admin adminIds user.id = true →
        Act.queryLogs 50 ∈ logs_cmd adminIds user (s :: rest) logs) := by
  constructor
  · simp [logs_cmd, h]
  · intro hadm
    simp only [logs_cmd, hadm, Bool.not_true, Bool.false_eq_true, if_false, h]
    split <;> simp

/-- Witness for C10 at a concrete signed argument. -/
theorem logs_cmd_nondigit_default_witness :
    logs_cmd [1] ⟨1, none, none⟩ ["-5"] [] = logs_cmd [1] ⟨1, none, none⟩ [] [] ∧
      Act.queryLogs 50 ∈ logs_cmd [1] ⟨1, none, none⟩ ["-5"] [] :=
  ⟨(logs_cmd_nondigit_default [1] ⟨1, none, none⟩ "-5" [] [] (by decide)).1,
    (logs_cmd_nondigit_default [1] ⟨1, none, none⟩ "-5" [] [] (by decide)).2 (by decide)⟩

/-- Claim C4: an admin invocation of /logs queries with limit 50 when no
argument is given and with `min n 500` when a digit-string argument `n` is
given; the limit never exceeds 500, and the rows the query returns are the
most recently appended rows, newest first, up to that limit. -/
theorem logs_cmd_limit_spec (adminIds : List Int) (user : TgUser)
    (args : List String) (logs : List LogEntry)
    (hadm : is_admin adminIds user.id = true) (hwf : WfLogs logs) :
    ∃ lim : Nat,
      Act.queryLogs lim ∈ logs_cmd adminIds user args logs ∧
      lim ≤ 500 ∧
      (args = [] → lim = 50) ∧
      (∀ s rest, args = s :: rest → str_isdigit s = true →
        lim = min (strToNat s) 500) ∧
      get_logs lim logs = logs.reverse.take lim := by
  have hsort : sortDescBy (fun r => r.id) logs = logs.reverse :=
    sortDescBy_eq_reverse (fun r => r.id) logs (by exact hwf)
  have hget : ∀ lim, get_logs lim logs = logs.reverse.take lim := by
    intro lim
    simp [get_logs, hsort]
  cases args with
  | nil =>
    refine ⟨50, ?_, by omega, fun _ => rfl, ?_, hget 50⟩
    · simp only [logs_cmd, hadm, Bool.not_true, Bool.false_eq_true, if_false]
      split <;> simp
    · intro s rest hcon
      exact absurd hcon (by simp)
  | cons s rest =>
    by_cases hd : str_isdigit s
    · refine ⟨min 500 (strToNat s), ?_, by omega, by simp, ?_,
        hget _⟩
      · simp only [logs_cmd, hadm, Bool.not_true, Bool.false_eq_true, if_false, hd,
          if_true]
        split <;> simp
      · intro s2 rest2 hcon hdig
        have hs : s2 = s := by
          injection hcon with h1 _
          exact h1.symm
        subst hs
        omega
    · refine ⟨50, ?_, by omega, by simp, ?_, hget 50⟩
      · simp only [logs_cmd, hadm, Bool.not_true, Bool.false_eq_true, if_false, hd,
          if_false]
        split <;> simp
      · intro s2 rest2 hcon hdig
        injection hcon with h1 _
        subst h1
        exact absurd hdig (by simp [hd])

/-- Witness for C4 at a concrete admin, argument and wellformed store. -/
theorem logs_cmd_limit_spec_witness :
    ∃ lim : Nat,
      Act.queryLogs lim ∈
        logs_cmd [1] ⟨1, none, none⟩ ["700"] [⟨1, 9, "u", "f", "a", "", 0⟩] ∧
      lim ≤ 500 ∧
      ((["700"] : List String) = [] → lim = 50) ∧
      (∀ s rest, (["700"] : List String) = s :: rest → str_isdigit s = true →
        lim = min (strToNat s) 500) ∧
      get_logs lim [⟨1, 9, "u", "f", "a", "", 0⟩] =
        [⟨1, 9, "u", "f", "a", "", 0⟩].reverse.take lim :=
  logs_cmd_limit_spec [1] ⟨1, none, none⟩ ["700"] [⟨1, 9, "u", "f", "a", "", 0⟩]
    (by decide) (by decide)

lemma tryBody_fst (env : Env) (user : TgUser) (url : String)
    (logs : List LogEntry) :
    (tryBody env user url logs).1 =
      match get_instagram_post_info url env.fetch with
      | Except.error _ => logs
      | Except.ok _ => add_log logs env.now user.id ((user.username).getD "")
          ((user.first_name).getD "") url "" := by
  cases hres : get_instagram_post_info url env.fetch with
  | error e => simp [tryBody, hres]
  | ok info =>
    simp only [tryBody, hres]
    cases hm : (mediaSend env info).2 <;> simp [hm]

lemma handle_message_logs (env : Env) (user : TgUser) (text : String)
    (logs : List LogEntry) :
    (handle_message env user text logs).2.1 =
      match extract_url (pyStrip text) with
      | none => logs
      | some url =>
        match env.replyTextRes statusMsg with
        | some _ => logs
        | none => (tryBody env user url logs).1 := by
  cases hurl : extract_url (pyStrip text) with
  | none =>
    simp only [handle_message, hurl]
    split <;> rfl
  | some url =>
    simp only [handle_message, hurl]
    split
    · rfl
    · split
      · rfl
      · split
        · rfl
        · split <;> rfl

/-- Claim C2: for a message containing a URL, exactly one row is appended to
the log store if and only if the handler's call to the media resolver returns
without raising (`resolveOk`); when the resolver raises, the store is
unchanged. -/
theorem handle_message_log_iff (env : Env) (user : TgUser) (text : String)
    (logs : List LogEntry) (url : String)
    (hurl : extract_url (pyStrip text) = some url) :
    ((∃ r, (handle_message env user text logs).2.1 = logs ++ [r]) ↔
        resolveOk env url) ∧
      (¬ resolveOk env url → (handle_message env user text logs).2.1 = logs) := by
  have hlogs := handle_message_logs env user text logs
  simp only [hurl] at hlogs
  cases hst : env.replyTextRes statusMsg with
  | some e =>
    simp only [hst] at hlogs
    have hnro : ¬ resolveOk env url := by
      rintro ⟨h1, -⟩
      rw [h1] at hst
      cases hst
    refine ⟨⟨?_, fun hro => absurd hro hnro⟩, fun _ => hlogs⟩
    rintro ⟨r, hr⟩
    rw [hlogs] at hr
    exact absurd (congrArg List.length hr) (by simp)
  | none =>
    simp only [hst] at hlogs
    have htf := tryBody_fst env user url logs
    cases hres : get_instagram_post_info url env.fetch with
    | error e =>
      simp only [hres] at htf
      rw [htf] at hlogs
      have hnro : ¬ resolveOk env url := by
        rintro ⟨-, info, hinfo⟩
        rw [hres] at hinfo
        cases hinfo
      refine ⟨⟨?_, fun hro => absurd hro hnro⟩, fun _ => hlogs⟩
      rintro ⟨r, hr⟩
      rw [hlogs] at hr
      exact absurd (congrArg List.length hr) (by simp)
    | ok info =>
      simp only [hres] at htf
      rw [htf] at hlogs
      have hro : resolveOk env url := ⟨hst, info, hres⟩
      refine ⟨⟨fun _ => hro, fun _ =>
        ⟨⟨nextId logs, user.id, (user.username).getD "",
          (user.first_name).getD "", url, "", env.now⟩, ?_⟩⟩,
        fun hn => absurd hro hn⟩
      rw [hlogs]
      rfl

/-- Witness for C2 at a concrete message, user and world. -/
theorem handle_message_log_iff_witness :
    ((∃ r, (handle_message envOk userA urlA []).2.1 = [] ++ [r]) ↔
        resolveOk envOk urlA) ∧
      (¬ resolveOk envOk urlA → (handle_message envOk userA urlA []).2.1 = []) :=
  handle_message_log_iff envOk userA urlA [] urlA (by decide)

/-- Counterexample to claim C1 as stated: on a successfully resolved
submission the appended row's media_pk is the empty string, not the
identifier 4242 the resolver assigned to the resolved post. -/
theorem media_pk_not_recorded_cx :
    envOk.fetch = Except.ok postA ∧
      ((handle_message envOk userA urlA []).2.1.map (fun r => r.media_pk)) = [""] ∧
      ((handle_message envOk userA urlA []).2.1.map (fun r => r.media_pk)) ≠
        [toString postA.mediaid] :=
  ⟨rfl, by decide, by decide⟩

/-- Claim C1 as amended: every row `handle_message` appends to the log store
carries the empty string in its media_pk field; the resolver-assigned
identifier is never recorded. -/
theorem handle_message_media_pk_empty (env : Env) (user : TgUser)
    (text : String) (logs : List LogEntry) (r : LogEntry)
    (h : (handle_message env user text logs).2.1 = logs ++ [r]) :
    r.media_pk = "" := by
  have hlogs := handle_message_logs env user text logs
  cases hurl : extract_url (pyStrip text) with
  | none =>
    simp only [hurl] at hlogs
    rw [hlogs] at h
    exact absurd (congrArg List.length h) (by simp)
  | some url =>
    simp only [hurl] at hlogs
    cases hst : env.replyTextRes statusMsg with
    | some e =>
      simp only [hst] at hlogs
      rw [hlogs] at h
      exact absurd (congrArg List.length h) (by simp)
    | none =>
      simp only [hst] at hlogs
      have htf := tryBody_fst env user url logs
      cases hres : get_instagram_post_info url env.fetch with
      | error e =>
        simp only [hres] at htf
        rw [htf] at hlogs
        rw [hlogs] at h
        exact absurd (congrArg List.length h) (by simp)
      | ok info =>
        simp only [hres] at htf
        rw [htf] at hlogs
        rw [hlogs] at h
        unfold add_log at h
        have h2 := List.append_cancel_left h
        have h3 : r = ⟨nextId logs, user.id, (user.username).getD "",
            (user.first_name).getD "", url, "", env.now⟩ := by
          injection h2 with h4 _
          exact h4.symm
        rw [h3]

/-- Witness for the amended C1 at a concrete run. -/
theorem handle_message_media_pk_empty_witness :
    (⟨1, 99, "bob", "Bob", "https://www.instagram.com/p/ABC/", "", 7⟩ :
      LogEntry).media_pk = "" :=
  handle_message_media_pk_empty envOk userA urlA []
    ⟨1, 99, "bob", "Bob", "https://www.instagram.com/p/ABC/", "", 7⟩ (by decide)

/-- Counterexample to claim C3 as stated: a network failure while sending the
please-wait message itself is an exception raised while handling a message
that contains a URL, and it escapes the handler uncaught. -/
theorem handler_uncaught_cx :
    handle_message envDown userA "check https://www.instagram.com/p/ABC/" [] =
      (HResult.uncaught "net down", [], []) := by decide

lemma sendAlbum_no_resolve (env : Env) (us : List String) (url : String) :
    Act.resolveCall url ∉ (sendAlbum env us).1 := by
  induction us with
  | nil => simp [sendAlbum]
  | cons u rest ih =>
    simp only [sendAlbum]
    split
    · cases env.replyVideoRes u <;> simp [ih]
    · cases env.replyPhotoRes u <;> simp [ih]

lemma mediaSend_no_resolve (env : Env) (info : MediaInfo) (url : String) :
    Act.resolveCall url ∉ (mediaSend env info).1 := by
  by_cases h1 : info.media_type = "photo"
  · simp only [mediaSend, h1, if_true]
    cases info.media_urls with
    | nil => simp
    | cons u _ => cases hp : env.replyPhotoRes u <;> simp [hp]
  · by_cases h2 : info.media_type = "video"
    · simp only [mediaSend, h1, h2, if_false, if_true]
      cases info.media_urls with
      | nil => simp
      | cons u _ => cases hv : env.replyVideoRes u <;> simp [hv]
    · by_cases h3 : info.media_type = "album"
      · simp only [mediaSend, h1, h2, h3, if_false, if_true]
        exact sendAlbum_no_resolve env info.media_urls url
      · simp only [mediaSend, h1, h2, h3, if_false]
        cases ht : env.replyTextRes unsupportedMsg <;> simp [ht]

lemma finishTry_no_resolve (env : Env) (ct : String) (url : String) :
    Act.resolveCall url ∉ (finishTry env ct).1 := by
  unfold finishTry
  cases hc : env.replyTextRes ct with
  | some e => simp [hc]
  | none => cases hd : env.deleteRes <;> simp [hc, hd]

lemma tryBody_resolve_once (env : Env) (user : TgUser) (url : String)
    (logs : List LogEntry) :
    (tryBody env user url logs).2.1.count (Act.resolveCall url) ≤ 1 := by
  cases hres : get_instagram_post_info url env.fetch with
  | error e => simp [tryBody, hres]
  | ok info =>
    simp only [tryBody, hres]
    cases hm : (mediaSend env info).2 with
    | some e =>
      simp only [List.count_cons, List.count_append]
      have := List.count_eq_zero.mpr (mediaSend_no_resolve env info url)
      simp [this]
    | none =>
      simp only [List.count_cons, List.count_append]
      have hm1 := List.count_eq_zero.mpr (mediaSend_no_resolve env info url)
      have hf1 := List.count_eq_zero.mpr (finishTry_no_resolve env (mkCaption info) url)
      simp [hm1, hf1]

/-- Claim C3 as amended: once the please-wait message has been delivered,
any exception the try block raises is caught by the handler: it is surfaced
by editing the status message to the error text when the edit succeeds, and
by a fresh reply carrying the same text when the edit itself raises and the
reply succeeds; in every case the resolver is invoked at most once (the
failed operation is not retried). -/
theorem handle_message_catches (env : Env) (user : TgUser) (text : String)
    (logs : List LogEntry) (url : String) (e : String)
    (hurl : extract_url (pyStrip text) = some url)
    (hstat : env.replyTextRes statusMsg = none)
    (htry : (tryBody env user url logs).2.2 = some e) :
    (env.editRes = none →
        (handle_message env user text logs).1 = HResult.ok ∧
          Act.editStatus (errText e) ∈ (handle_message env user text logs).2.2) ∧
      (env.editRes ≠ none → env.replyTextRes (errText e) = none →
        (handle_message env user text logs).1 = HResult.ok ∧
          Act.sendText (errText e) ∈ (handle_message env user text logs).2.2) ∧
      (handle_message env user text logs).2.2.count (Act.resolveCall url) ≤ 1 := by
  have hcount := tryBody_resolve_once env user url logs
  simp only [handle_message, hurl, hstat, htry]
  cases hed : env.editRes with
  | none =>
    refine ⟨fun _ => ⟨rfl, by simp⟩, fun hne => absurd rfl hne, ?_⟩
    simp only [List.count_cons, List.count_append]
    simpa using hcount
  | some e1 =>
    cases hfb : env.replyTextRes (errText e) with
    | none =>
      refine ⟨?_, ?_, ?_⟩
      · intro hc
        cases hc
      · intro _ _
        exact ⟨rfl, by simp⟩
      · simp only [List.count_cons, List.count_append]
        simpa using hcount
    | some e2 =>
      refine ⟨?_, ?_, ?_⟩
      · intro hc
        cases hc
      · intro _ hc
        cases hc
      · simp only [List.count_cons]
        simpa using hcount

/-- Witness for the amended C3 at a concrete failing resolution. -/
theorem handle_message_catches_witness :
    (envErr.editRes = none →
        (handle_message envErr userA urlA []).1 = HResult.ok ∧
          Act.editStatus (errText "boom") ∈ (handle_message envErr userA urlA []).2.2) ∧
      (envErr.editRes ≠ none → envErr.replyTextRes (errText "boom") = none →
        (handle_message envErr userA urlA []).1 = HResult.ok ∧
          Act.sendText (errText "boom") ∈ (handle_message envErr userA urlA []).2.2) ∧
      (handle_message envErr userA urlA []).2.2.count (Act.resolveCall urlA) ≤ 1 :=
  handle_message_catches envErr userA urlA [] urlA "boom" (by decide) rfl (by decide)

lemma take1_mkCaption (info : MediaInfo) : (mkCaption info).data.take 1 = ['📄'] := rfl

lemma take3_errText (e : String) : (errText e).data.take 3 = ['❌', ' ', 'X'] := rfl

lemma mkCaption_ne_unsupported (info : MediaInfo) : mkCaption info ≠ unsupportedMsg := by
  intro h
  have h3 : (mkCaption info).data.take 1 = unsupportedMsg.data.take 1 := by rw [h]
  rw [take1_mkCaption] at h3
  exact absurd h3 (by decide)

lemma errText_ne_unsupported (e : String) : errText e ≠ unsupportedMsg := by
  intro h
  have h3 : (errText e).data.take 3 = unsupportedMsg.data.take 3 := by rw [h]
  rw [take3_errText] at h3
  exact absurd h3 (by decide)

lemma media_type_cases (url : String) (fetch : Except String Post)
    (info : MediaInfo) (h : get_instagram_post_info url fetch = Except.ok info) :
    info.media_type = "photo" ∨ info.media_type = "video" ∨
      info.media_type = "album" := by
  unfold get_instagram_post_info at h
  cases hsc : get_shortcode_from_url url with
  | none =>
    rw [hsc] at h
    cases h
  | some sc =>
    simp only [hsc] at h
    cases fetch with
    | error e => cases h
    | ok post =>
      simp only at h
      by_cases hv : post.is_video
      · simp only [hv, if_true] at h
        injection h with h2
        rw [← h2]
        right
        left
        rfl
      · by_cases hs : post.typename = "GraphSidecar"
        · simp only [hv, hs, if_false, if_true] at h
          injection h with h2
          rw [← h2]
          right
          right
          rfl
        · simp only [hv, hs, if_false] at h
          injection h with h2
          rw [← h2]
          left
          rfl

lemma sendAlbum_no_sendText (env : Env) (us : List String) (s : String) :
    Act.sendText s ∉ (sendAlbum env us).1 := by
  induction us with
  | nil => simp [sendAlbum]
  | cons u rest ih =>
    simp only [sendAlbum]
    split
    · cases hv : env.replyVideoRes u <;> simp [hv, ih]
    · cases hp : env.replyPhotoRes u <;> simp [hp, ih]

lemma mediaSend_no_unsupported (env : Env) (info : MediaInfo)
    (h : info.media_type = "photo" ∨ info.media_type = "video" ∨
      info.media_type = "album") :
    Act.sendText unsupportedMsg ∉ (mediaSend env info).1 := by
  rcases h with h1 | h1 | h1
  · simp only [mediaSend, h1, if_true]
    cases info.media_urls with
    | nil => simp
    | cons u _ => cases hp : env.replyPhotoRes u <;> simp [hp]
  · have hne : info.media_type ≠ "photo" := by rw [h1]; decide
    simp only [mediaSend, h1, hne, if_false, if_true]
    cases info.media_urls with
    | nil => simp
    | cons u _ => cases hv : env.replyVideoRes u <;> simp [hv]
  · have hne1 : info.media_type ≠ "photo" := by rw [h1]; decide
    have hne2 : info.media_type ≠ "video" := by rw [h1]; decide
    simp only [mediaSend, h1, hne1, hne2, if_false, if_true]
    exact sendAlbum_no_sendText env info.media_urls unsupportedMsg

lemma finishTry_sendText (env : Env) (ct : String) (s : String)
    (h : Act.sendText s ∈ (finishTry env ct).1) : s = ct := by
  unfold finishTry at h
  cases hc : env.replyTextRes ct with
  | some e =>
    simp [hc] at h
  | none =>
    cases hd : env.deleteRes <;> simp [hc, hd] at h <;> exact h

lemma tryBody_no_unsupported (env : Env) (user : TgUser) (url : String)
    (logs : List LogEntry) :
    Act.sendText unsupportedMsg ∉ (tryBody env user url logs).2.1 := by
  cases hres : get_instagram_post_info url env.fetch with
  | error e => simp [tryBody, hres]
  | ok info =>
    have henum := media_type_cases url env.fetch info hres
    simp only [tryBody, hres]
    cases hm : (mediaSend env info).2 with
    | some e =>
      intro hmem
      simp only [List.mem_cons] at hmem
      rcases hmem with h | h
      · cases h
      · exact mediaSend_no_unsupported env info henum h
    | none =>
      intro hmem
      simp only [List.mem_cons, List.mem_append] at hmem
      rcases hmem with (h | h) | h
      · cases h
      · exact mediaSend_no_unsupported env info henum h
      · exact mkCaption_ne_unsupported info
          (finishTry_sendText env (mkCaption info) unsupportedMsg h).symm

/-- Claim C9: every result the resolver returns without raising carries a
media_type equal to photo, video or album, and consequently the fallback
branch replying that the media is unsupported is unreachable: no run of the
message handler ever emits that reply. -/
theorem media_type_enum :
    (∀ url fetch info, get_instagram_post_info url fetch = Except.ok info →
      info.media_type = "photo" ∨ info.media_type = "video" ∨
        info.media_type = "album") ∧
    ∀ env user text logs,
      Act.sendText unsupportedMsg ∉ (handle_message env user text logs).2.2 := by
  refine ⟨media_type_cases, ?_⟩
  intro env user text logs
  cases hurl : extract_url (pyStrip text) with
  | none =>
    cases hp : env.replyTextRes promptMsg with
    | some e => simp [handle_message, hurl, hp]
    | none =>
      simp only [handle_message, hurl, hp]
      intro hmem
      simp only [List.mem_singleton] at hmem
      injection hmem with h3
      exact absurd h3 (by decide)
  | some url =>
    cases hst : env.replyTextRes statusMsg with
    | some e => simp [handle_message, hurl, hst]
    | none =>
      have htb := tryBody_no_unsupported env user url logs
      have hstatus : unsupportedMsg ≠ statusMsg := by decide
      simp only [handle_message, hurl, hst]
      split
      · intro hmem
        simp only [List.mem_cons] at hmem
        rcases hmem with h | h
        · injection h with h2
          exact absurd h2 hstatus
        · exact htb h
      · intro hmem
        split at hmem
        · simp only [List.mem_cons, List.mem_append, List.not_mem_nil,
            or_false] at hmem
          rcases hmem with (h | h) | h
          · injection h with h2
            exact absurd h2 hstatus
          · exact htb h
          · simp at h
        · split at hmem
          · simp only [List.mem_cons, List.mem_append, List.not_mem_nil,
              or_false] at hmem
            rcases hmem with (h | h) | h
            · injection h with h2
              exact absurd h2 hstatus
            · exact htb h
            · injection h with h2
              exact absurd h2.symm (errText_ne_unsupported _)
          · simp only [List.mem_cons] at hmem
            rcases hmem with h | h
            · injection h with h2
              exact absurd h2 hstatus
            · exact htb h

/-- Witness for C9 at a concrete resolver result and a concrete run. -/
theorem media_type_enum_witness :
    ((⟨"photo", ["https://cdn.example/pic.jpg"], "salom #tag", ["#tag"], []⟩ :
        MediaInfo).media_type = "photo" ∨
      (⟨"photo", ["https://cdn.example/pic.jpg"], "salom #tag", ["#tag"], []⟩ :
        MediaInfo).media_type = "video" ∨
      (⟨"photo", ["https://cdn.example/pic.jpg"], "salom #tag", ["#tag"], []⟩ :
        MediaInfo).media_type = "album") ∧
      Act.sendText unsupportedMsg ∉ (handle_message envOk userA urlA []).2.2 :=
  ⟨media_type_enum.1 urlA (Except.ok postA)
      ⟨"photo", ["https://cdn.example/pic.jpg"], "salom #tag", ["#tag"], []⟩
      (by rfl),
    media_type_enum.2 envOk userA urlA []⟩

lemma foldl_max_comm (l : List Nat) : ∀ a x : Nat,
    l.foldl max (max a x) = max (l.foldl max a) x := by
  induction l with
  | nil => intro a x; rfl
  | cons c t ih =>
    intro a x
    simp only [List.foldl_cons]
    rw [show max (max a x) c = max (max a c) x by
      rw [Nat.max_assoc, Nat.max_comm x c, ← Nat.max_assoc]]
    exact ih (max a c) x

lemma foldl_max_reverse (l : List Nat) : ∀ a : Nat,
    l.reverse.foldl max a = l.foldl max a := by
  induction l with
  | nil => intro a; rfl
  | cons x t ih =>
    intro a
    simp only [List.reverse_cons, List.foldl_append, List.foldl_cons,
      List.foldl_nil]
    rw [ih a, ← foldl_max_comm t a x]

lemma linkMaxId_reverse (logs : List LogEntry) (l : String) :
    linkMaxId logs.reverse l = linkMaxId logs l := by
  unfold linkMaxId
  rw [List.filter_reverse, List.map_reverse, foldl_max_reverse]

lemma foldl_max_le (l : List Nat) : ∀ a : Nat, (∀ x ∈ l, x ≤ a) →
    l.foldl max a = a := by
  induction l with
  | nil => intro a _; rfl
  | cons c t ih =>
    intro a h
    simp only [List.foldl_cons]
    rw [Nat.max_eq_left (h c (List.mem_cons_self c t))]
    exact ih a (fun x hx => h x (List.mem_cons_of_mem c hx))

lemma foldl_max_lt (l : List Nat) : ∀ a c : Nat, a < c → (∀ x ∈ l, x < c) →
    l.foldl max a < c := by
  induction l with
  | nil => intro a c ha _; exact ha
  | cons d t ih =>
    intro a c ha h
    simp only [List.foldl_cons]
    exact ih (max a d) c (Nat.max_lt.mpr ⟨ha, h d (List.mem_cons_self d t)⟩)
      (fun x hx => h x (List.mem_cons_of_mem d hx))

lemma linkMaxId_head (r : LogEntry) (ws : List LogEntry)
    (h : ∀ s ∈ ws, s.id < r.id) : linkMaxId (r :: ws) r.link = r.id := by
  unfold linkMaxId
  rw [List.filter_cons, if_pos (by simp)]
  simp only [List.map_cons, List.foldl_cons, Nat.zero_max]
  apply foldl_max_le
  intro x hx
  rcases List.mem_map.mp hx with ⟨s2, hs2, hxeq⟩
  rw [← hxeq]
  exact Nat.le_of_lt (h s2 (List.mem_filter.mp hs2).1)

lemma linkMaxId_cons_ne (r : LogEntry) (ws : List LogEntry) (b : String)
    (hb : ¬ r.link = b) : linkMaxId (r :: ws) b = linkMaxId ws b := by
  unfold linkMaxId
  rw [List.filter_cons, if_neg (by simp [hb])]

lemma linkMaxId_filter_ne (ws : List LogEntry) (rl : String) (b : String)
    (hb : b ≠ rl) :
    linkMaxId (ws.filter (fun w => w.link != rl)) b = linkMaxId ws b := by
  unfold linkMaxId
  rw [List.filter_filter]
  have hpq : ∀ w ∈ ws,
      ((w.link == b) && (w.link != rl)) = (w.link == b) := by
    intro w _
    by_cases hw : w.link = b
    · simp [hw, hb]
    · simp [hw]
  rw [List.filter_congr hpq]

lemma linkMaxId_lt_of_mem (ws : List LogEntry) (b : String) (c : Nat)
    (hmem : ∃ w ∈ ws, w.link = b) (hlt : ∀ s ∈ ws, s.id < c) :
    linkMaxId ws b < c := by
  rcases hmem with ⟨w, hw, hwb⟩
  unfold linkMaxId
  apply foldl_max_lt
  · exact Nat.lt_of_le_of_lt (Nat.zero_le _) (hlt w hw)
  · intro x hx
    rcases List.mem_map.mp hx with ⟨s2, hs2, hxeq⟩
    rw [← hxeq]
    exact hlt s2 (List.mem_filter.mp hs2).1

lemma map_filter_comm {α β : Type} (f : α → β) (p : β → Bool) (l : List α) :
    (l.map f).filter p = (l.filter (fun x => p (f x))).map f := by
  induction l with
  | nil => rfl
  | cons a t ih =>
    simp only [List.map_cons, List.filter_cons]
    by_cases hp : p (f a) = true
    · rw [if_pos hp, if_pos hp, List.map_cons, ih]
    · rw [if_neg hp, if_neg hp, ih]

lemma distinctFirstF_subset {α : Type} [DecidableEq α] :
    ∀ (n : Nat) (xs : List α) (b : α), b ∈ distinctFirstF n xs → b ∈ xs := by
  intro n
  induction n with
  | zero =>
    intro xs b h
    simp [distinctFirstF] at h
  | succ n ih =>
    intro xs b h
    cases xs with
    | nil => simp [distinctFirstF] at h
    | cons a l =>
      simp only [distinctFirstF, List.mem_cons] at h
      rcases h with h | h
      · exact h ▸ List.mem_cons_self a l
      · exact List.mem_cons_of_mem a (List.mem_filter.mp (ih _ _ h)).1

lemma distinctFirstF_nodup {α : Type} [DecidableEq α] :
    ∀ (n : Nat) (xs : List α), (distinctFirstF n xs).Nodup := by
  intro n
  induction n with
  | zero => intro xs; simp [distinctFirstF]
  | succ n ih =>
    intro xs
    cases xs with
    | nil => simp [distinctFirstF]
    | cons a l =>
      simp only [distinctFirstF]
      refine List.nodup_cons.mpr ⟨?_, ih _⟩
      intro hmem
      have h2 := (List.mem_filter.mp (distinctFirstF_subset n _ a hmem)).2
      simp at h2

lemma distinctFirstF_links_pairwise :
    ∀ (n : Nat) (zs : List LogEntry),
      zs.Pairwise (fun r s => s.id < r.id) →
      (distinctFirstF n (zs.map (fun r => r.link))).Pairwise
        (fun a b => linkMaxId zs b < linkMaxId zs a) := by
  intro n
  induction n with
  | zero => intro zs _; simp [distinctFirstF]
  | succ n ih =>
    intro zs h
    cases zs with
    | nil => simp [distinctFirstF]
    | cons r ws =>
      rcases List.pairwise_cons.mp h with ⟨h1, h2⟩
      simp only [List.map_cons, distinctFirstF]
      rw [map_filter_comm (fun w => w.link) (fun x => x != r.link) ws]
      have hrec := ih (ws.filter (fun w => w.link != r.link)) (h2.filter _)
      refine List.pairwise_cons.mpr ⟨?_, ?_⟩
      · intro b hb
        rcases List.mem_map.mp (distinctFirstF_subset n _ b hb) with ⟨w, hw, hwb⟩
        have hwin : w ∈ ws := (List.mem_filter.mp hw).1
        have hwne : w.link ≠ r.link := by
          have h3 := (List.mem_filter.mp hw).2
          simpa using h3
        have hbne : ¬ r.link = b := by
          rw [← hwb]
          exact fun hh => hwne hh.symm
        rw [linkMaxId_head r ws h1, linkMaxId_cons_ne r ws b hbne]
        refine linkMaxId_lt_of_mem ws b r.id ⟨w, hwin, hwb⟩ h1
      · refine List.Pairwise.imp_of_mem ?_ hrec
        intro a b ha hb hab
        rcases List.mem_map.mp (distinctFirstF_subset n _ a ha) with ⟨wa, hwa, hwaeq⟩
        rcases List.mem_map.mp (distinctFirstF_subset n _ b hb) with ⟨wb, hwb2, hwbeq⟩
        have hane : a ≠ r.link := by
          rw [← hwaeq]
          have h3 := (List.mem_filter.mp hwa).2
          simpa using h3
        have hbne : b ≠ r.link := by
          rw [← hwbeq]
          have h3 := (List.mem_filter.mp hwb2).2
          simpa using h3
        rw [linkMaxId_cons_ne r ws b (fun hh => hbne hh.symm),
          linkMaxId_cons_ne r ws a (fun hh => hane hh.symm),
          ← linkMaxId_filter_ne ws r.link a hane,
          ← linkMaxId_filter_ne ws r.link b hbne]
        exact hab

/-- Claim C8: the list the admin /links command sends contains each link at
most once, ordered by strictly descending maximal row id per link (most
recently submitted first); the message sent is exactly the newline join of
that list. -/
theorem links_dedup_ordered (adminIds : List Int) (user : TgUser)
    (args : List String) (logs : List LogEntry)
    (hadm : is_admin adminIds user.id = true) (hwf : WfLogs logs) :
    (get_links 200 logs).Nodup ∧
      (get_links 200 logs).Pairwise
        (fun a b => linkMaxId logs b < linkMaxId logs a) ∧
      (get_links 200 logs = [] ∨
        Act.sendText (String.intercalate "\n" (get_links 200 logs)) ∈
          links_cmd adminIds user args logs) := by
  have hsort : sortDescBy (fun r => r.id) logs = logs.reverse :=
    sortDescBy_eq_reverse (fun r => r.id) logs (by exact hwf)
  have hrev : logs.reverse.Pairwise (fun r s => s.id < r.id) :=
    List.pairwise_reverse.mpr (by exact hwf)
  have hglinks : get_links 200 logs =
      (distinctFirstF (logs.reverse.map (fun r => r.link)).length
        (logs.reverse.map (fun r => r.link))).take 200 := by
    simp [get_links, distinctFirst, hsort]
  refine ⟨?_, ?_, ?_⟩
  · rw [hglinks]
    exact List.Nodup.sublist (List.take_sublist _ _) (distinctFirstF_nodup _ _)
  · rw [hglinks]
    have hp := distinctFirstF_links_pairwise
      (logs.reverse.map (fun r => r.link)).length logs.reverse hrev
    have hp2 : (distinctFirstF (logs.reverse.map (fun r => r.link)).length
        (logs.reverse.map (fun r => r.link))).Pairwise
        (fun a b => linkMaxId logs b < linkMaxId logs a) := by
      refine List.Pairwise.imp ?_ hp
      intro a b hab
      rwa [linkMaxId_reverse, linkMaxId_reverse] at hab
    exact List.Pairwise.sublist (List.take_sublist _ _) hp2
  · by_cases hnil : get_links 200 logs = []
    · exact Or.inl hnil
    · refine Or.inr ?_
      simp only [links_cmd, hadm, Bool.not_true, Bool.false_eq_true, if_false]
      rw [if_neg (by simpa [List.isEmpty_iff] using hnil)]
      simp

/-- Witness for C8 at a concrete admin and wellformed store. -/
theorem links_dedup_ordered_witness :
    (get_links 200
        [⟨1, 9, "u", "f", "a", "", 0⟩, ⟨2, 9, "u", "f", "b", "", 0⟩]).Nodup ∧
      (get_links 200
        [⟨1, 9, "u", "f", "a", "", 0⟩, ⟨2, 9, "u", "f", "b", "", 0⟩]).Pairwise
        (fun a b =>
          linkMaxId [⟨1, 9, "u", "f", "a", "", 0⟩, ⟨2, 9, "u", "f", "b", "", 0⟩] b <
            linkMaxId [⟨1, 9, "u", "f", "a", "", 0⟩, ⟨2, 9, "u", "f", "b", "", 0⟩] a) ∧
      (get_links 200 [⟨1, 9, "u", "f", "a", "", 0⟩, ⟨2, 9, "u", "f", "b", "", 0⟩] = [] ∨
        Act.sendText (String.intercalate "\n"
            (get_links 200 [⟨1, 9, "u", "f", "a", "", 0⟩, ⟨2, 9, "u", "f", "b", "", 0⟩])) ∈
          links_cmd [1] ⟨1, none, none⟩ []
            [⟨1, 9, "u", "f", "a", "", 0⟩, ⟨2, 9, "u", "f", "b", "", 0⟩]) :=
  links_dedup_ordered [1] ⟨1, none, none⟩ []
    [⟨1, 9, "u", "f", "a", "", 0⟩, ⟨2, 9, "u", "f", "b", "", 0⟩]
    (by decide) (by decide)

lemma dropWhile_head_or {α : Type} (p : α → Bool) (l : List α) :
    l.dropWhile p = [] ∨ ∃ d t, l.dropWhile p = d :: t ∧ p d = false := by
  induction l with
  | nil => exact Or.inl rfl
  | cons a t ih =>
    by_cases hp : p a = true
    · rw [List.dropWhile_cons, if_pos hp]
      exact ih
    · rw [List.dropWhile_cons, if_neg hp]
      exact Or.inr ⟨a, t, rfl, by simpa using hp⟩

lemma drop_takeWhile_length {α : Type} (p : α → Bool) (l : List α) :
    l.drop (l.takeWhile p).length = l.dropWhile p :=
  calc l.drop (l.takeWhile p).length
      = ((l.takeWhile p) ++ (l.dropWhile p)).drop (l.takeWhile p).length := by
        rw [List.takeWhile_append_dropWhile]
    _ = l.dropWhile p := List.drop_left _ _

lemma urlMatchAt_some (cs m : List Char) (h : urlMatchAt cs = some m) :
    urlShape m ∧ m <+: cs ∧
      (cs.drop m.length = [] ∨
        ∃ d t2, cs.drop m.length = d :: t2 ∧ pySpace d = true) := by
  unfold urlMatchAt at h
  by_cases h8 : httpsPre.isPrefixOf cs
  · rw [if_pos h8] at h
    obtain ⟨r, hr⟩ := List.isPrefixOf_iff_prefix.mp h8
    have hdrop : cs.drop 8 = r := by
      rw [← hr]
      exact List.drop_left httpsPre r
    by_cases hb : ((cs.drop 8).takeWhile (fun c => !pySpace c)).isEmpty
    · rw [if_pos hb] at h
      cases h
    · rw [if_neg hb] at h
      injection h with hm
      subst hm
      refine ⟨⟨(cs.drop 8).takeWhile (fun c => !pySpace c), ?_, ?_, Or.inr rfl⟩,
        ?_, ?_⟩
      · intro hc
        exact hb (by simp [hc])
      · intro c hc
        simpa using List.mem_takeWhile_imp hc
      · rw [← hr]
        refine (List.prefix_append_right_inj httpsPre).mpr ?_
        rw [← hdrop]
        exact List.takeWhile_prefix _
      · rw [hdrop]
        have hstep : cs.drop (httpsPre ++ r.takeWhile (fun c => !pySpace c)).length =
            r.dropWhile (fun c => !pySpace c) := by
          rw [show (httpsPre ++ r.takeWhile (fun c => !pySpace c)).length =
              httpsPre.length + (r.takeWhile (fun c => !pySpace c)).length by simp,
            ← hr, List.drop_append, drop_takeWhile_length]
        rw [hstep]
        rcases dropWhile_head_or (fun c => !pySpace c) r with hcase | ⟨d, t2, hdt, hd⟩
        · exact Or.inl hcase
        · exact Or.inr ⟨d, t2, hdt, by simpa using hd⟩
  · rw [if_neg h8] at h
    by_cases h7 : httpPre.isPrefixOf cs
    · rw [if_pos h7] at h
      obtain ⟨r, hr⟩ := List.isPrefixOf_iff_prefix.mp h7
      have hdrop : cs.drop 7 = r := by
        rw [← hr]
        exact List.drop_left httpPre r
      by_cases hb : ((cs.drop 7).takeWhile (fun c => !pySpace c)).isEmpty
      · rw [if_pos hb] at h
        cases h
      · rw [if_neg hb] at h
        injection h with hm
        subst hm
        refine ⟨⟨(cs.drop 7).takeWhile (fun c => !pySpace c), ?_, ?_, Or.inl rfl⟩,
          ?_, ?_⟩
        · intro hc
          exact hb (by simp [hc])
        · intro c hc
          simpa using List.mem_takeWhile_imp hc
        · rw [← hr]
          refine (List.prefix_append_right_inj httpPre).mpr ?_
          rw [← hdrop]
          exact List.takeWhile_prefix _
        · rw [hdrop]
          have hstep : cs.drop (httpPre ++ r.takeWhile (fun c => !pySpace c)).length =
              r.dropWhile (fun c => !pySpace c) := by
            rw [show (httpPre ++ r.takeWhile (fun c => !pySpace c)).length =
                httpPre.length + (r.takeWhile (fun c => !pySpace c)).length by simp,
              ← hr, List.drop_append, drop_takeWhile_length]
          rw [hstep]
          rcases dropWhile_head_or (fun c => !pySpace c) r with hcase | ⟨d, t2, hdt, hd⟩
          · exact Or.inl hcase
          · exact Or.inr ⟨d, t2, hdt, by simpa using hd⟩
    · rw [if_neg h7] at h
      cases h

lemma urlMatchAt_isSome_of_shape (cs u : List Char) (hs : urlShape u)
    (hp : u <+: cs) : (urlMatchAt cs).isSome := by
  rcases hs with ⟨t, htne, htns, hcase | hcase⟩
  · subst hcase
    obtain ⟨s, hsu⟩ := hp
    have h8 : ¬ httpsPre.isPrefixOf cs = true := by
      intro hpre
      obtain ⟨y, hy⟩ := List.isPrefixOf_iff_prefix.mp hpre
      rw [← hsu] at hy
      simp [httpsPre, httpPre] at hy
    have h7 : httpPre.isPrefixOf cs = true :=
      List.isPrefixOf_iff_prefix.mpr ⟨t ++ s, by rw [← hsu, List.append_assoc]⟩
    have hdrop : cs.drop 7 = t ++ s := by
      rw [← hsu, List.append_assoc]
      exact List.drop_left httpPre (t ++ s)
    unfold urlMatchAt
    rw [if_neg h8, if_pos h7, hdrop]
    cases t with
    | nil => exact absurd rfl htne
    | cons c t2 =>
      have hc : (!pySpace c) = true := by
        simpa using htns c (List.mem_cons_self c t2)
      simp [List.takeWhile_cons_of_pos hc]
      simpa using hc
  · subst hcase
    obtain ⟨s, hsu⟩ := hp
    have h8 : httpsPre.isPrefixOf cs = true :=
      List.isPrefixOf_iff_prefix.mpr ⟨t ++ s, by rw [← hsu, List.append_assoc]⟩
    have hdrop : cs.drop 8 = t ++ s := by
      rw [← hsu, List.append_assoc]
      exact List.drop_left httpsPre (t ++ s)
    unfold urlMatchAt
    rw [if_pos h8, hdrop]
    cases t with
    | nil => exact absurd rfl htne
    | cons c t2 =>
      have hc : (!pySpace c) = true := by
        simpa using htns c (List.mem_cons_self c t2)
      simp [List.takeWhile_cons_of_pos hc]
      simpa using hc

lemma urlSearch_none_iff (cs : List Char) :
    urlSearch cs = none ↔ ∀ i, urlMatchAt (cs.drop i) = none := by
  induction cs with
  | nil =>
    constructor
    · intro _ i
      rw [List.drop_nil]
      rfl
    · intro _
      rfl
  | cons c rest ih =>
    constructor
    · intro h i
      have h0 : urlMatchAt (c :: rest) = none := by
        cases hm : urlMatchAt (c :: rest) with
        | none => rfl
        | some m =>
          unfold urlSearch at h
          rw [hm] at h
          cases h
      have h1 : urlSearch rest = none := by
        unfold urlSearch at h
        rw [h0] at h
        exact h
      cases i with
      | zero => exact h0
      | succ j =>
        rw [List.drop_succ_cons]
        exact (ih.mp h1) j
    · intro h
      unfold urlSearch
      rw [show urlMatchAt (c :: rest) = none from by simpa using h 0]
      exact ih.mpr (fun j => by simpa [List.drop_succ_cons] using h (j + 1))

lemma urlSearch_some (cs m : List Char) (h : urlSearch cs = some m) :
    ∃ i, urlMatchAt (cs.drop i) = some m ∧
      ∀ j, j < i → urlMatchAt (cs.drop j) = none := by
  induction cs with
  | nil => simp [urlSearch] at h
  | cons c rest ih =>
    unfold urlSearch at h
    cases hm : urlMatchAt (c :: rest) with
    | some m2 =>
      rw [hm] at h
      injection h with h2
      subst h2
      exact ⟨0, hm, fun j hj => absurd hj (Nat.not_lt_zero j)⟩
    | none =>
      rw [hm] at h
      rcases ih h with ⟨i, hi1, hi2⟩
      refine ⟨i + 1, by simpa [List.drop_succ_cons] using hi1, ?_⟩
      intro j hj
      cases j with
      | zero => exact hm
      | succ j2 =>
        rw [List.drop_succ_cons]
        exact hi2 j2 (Nat.lt_of_succ_lt_succ hj)

/-- Claim C5: extract_url returns None exactly when no substring of the text
matches the URL pattern, and whenever it returns a string, that string is the
maximal match at the leftmost position where the pattern matches at all. -/
theorem extract_url_correct (text : String) :
    (extract_url text = none ↔ ∀ i, ¬ hasMatchAt text.toList i) ∧
      (∀ u, extract_url text = some u →
        ∃ i, greedyAt text.toList i u.data ∧
          ∀ j, j < i → ¬ hasMatchAt text.toList j) := by
  constructor
  · constructor
    · intro h i hmatch
      have hse : urlSearch text.toList = none := by
        unfold extract_url at h
        cases hs : urlSearch text.toList with
        | none => rfl
        | some m =>
          rw [hs] at h
          cases h
      rcases hmatch with ⟨u, hshape, hpre⟩
      have hsome := urlMatchAt_isSome_of_shape _ u hshape hpre
      rw [(urlSearch_none_iff text.toList).mp hse i] at hsome
      simp at hsome
    · intro h
      unfold extract_url
      cases hs : urlSearch text.toList with
      | none => rfl
      | some m =>
        exfalso
        rcases urlSearch_some _ m hs with ⟨i, hi1, -⟩
        rcases urlMatchAt_some _ m hi1 with ⟨hshape, hpre, -⟩
        exact h i ⟨m, hshape, hpre⟩
  · intro u hu
    unfold extract_url at hu
    cases hs : urlSearch text.toList with
    | none =>
      rw [hs] at hu
      cases hu
    | some m =>
      rw [hs] at hu
      injection hu with hu2
      have hud : u.data = m := by rw [← hu2]
      rcases urlSearch_some _ m hs with ⟨i, hi1, hi2⟩
      rcases urlMatchAt_some _ m hi1 with ⟨hshape, hpre, hmax⟩
      refine ⟨i, ?_, ?_⟩
      · rw [greedyAt, hud]
        exact ⟨hshape, hpre, hmax⟩
      · intro j hj hmatch
        rcases hmatch with ⟨v, hvshape, hvpre⟩
        have hsome := urlMatchAt_isSome_of_shape _ v hvshape hvpre
        rw [hi2 j hj] at hsome
        simp at hsome

/-- Witness for C5 at a concrete text whose URL sits after other words. -/
theorem extract_url_correct_witness :
    ∃ i, greedyAt ("see https://a.b then" : String).toList i
        ("https://a.b" : String).data ∧
      ∀ j, j < i → ¬ hasMatchAt ("see https://a.b then" : String).toList j :=
  (extract_url_correct "see https://a.b then").2 "https://a.b" (by decide)

end InstaBot

